import Mathlib

set_option maxHeartbeats 1000000

/-!
Verification of the page-to-markdown content extraction and conversion
pipeline.  Definitions embed the JavaScript/TypeScript sources
(`src/content.js`, `src/background.js` and the TypeScript
content-extractor / markdown-converter modules); theorems settle the
specification claims about them.
-/

/-- The JavaScript regex class whitespace set (used by String.prototype.trim,
split on whitespace runs, and whitespace-collapsing replaces). -/
def wsB (c : Char) : Bool :=
  let n := c.toNat
  n = 0x20 || n = 0x09 || n = 0x0A || n = 0x0B || n = 0x0C || n = 0x0D ||
  n = 0xA0 || n = 0x1680 || (0x2000 ≤ n && n ≤ 0x200A) || n = 0x2028 ||
  n = 0x2029 || n = 0x202F || n = 0x205F || n = 0x3000 || n = 0xFEFF

/-- JavaScript String.prototype.trim on a character list: drop whitespace
from both ends. -/
def jsTrimL (l : List Char) : List Char :=
  (((l.dropWhile wsB).reverse.dropWhile wsB).reverse)

/-- JavaScript String.prototype.trim. -/
def jsTrim (s : String) : String :=
  ⟨jsTrimL s.data⟩

/-- Prepend a character onto the first piece of a split result. -/
def consHead (c : Char) : List (List Char) → List (List Char)
  | [] => [[c]]
  | h :: t => (c :: h) :: t

/-- JavaScript `str.split(/\s+/)` on a character list: pieces between
maximal whitespace runs (an empty leading piece when the string starts
with whitespace, an empty trailing piece when it ends with one). -/
def splitRuns : List Char → List (List Char)
  | [] => [[]]
  | c :: t =>
    if wsB c then [] :: splitRuns (t.dropWhile wsB)
    else consHead c (splitRuns t)
termination_by l => l.length
decreasing_by
  · simp only [List.length_cons]
    have h : (List.dropWhile wsB t).length ≤ t.length :=
      (List.dropWhile_sublist wsB).length_le
    omega
  · simp only [List.length_cons]
    omega

/-- `countWords` from `content.js` / the content extractor:
`text.trim().split(/\s+/).filter(word => word.length > 0).length`. -/
def countWords (s : String) : Nat :=
  ((splitRuns (jsTrimL s.data)).filter (fun w => !w.isEmpty)).length

/-- The specification's notion: the whitespace-delimited non-empty tokens of
a text (maximal runs of non-whitespace characters). -/
def tokens : List Char → List (List Char)
  | [] => []
  | c :: t =>
    if wsB c then tokens t
    else (c :: t.takeWhile (fun x => !wsB x)) :: tokens (t.dropWhile (fun x => !wsB x))
termination_by l => l.length
decreasing_by
  · simp only [List.length_cons]; omega
  · simp only [List.length_cons]
    have h : (List.dropWhile (fun x => !wsB x) t).length ≤ t.length :=
      (List.dropWhile_sublist (fun x => !wsB x)).length_le
    omega

/-- Number of maximal non-whitespace runs in a character list. -/
def runCount : List Char → Nat
  | [] => 0
  | c :: t =>
    if wsB c then runCount t
    else 1 + runCount (t.dropWhile (fun x => !wsB x))
termination_by l => l.length
decreasing_by
  · simp only [List.length_cons]; omega
  · simp only [List.length_cons]
    have h : (List.dropWhile (fun x => !wsB x) t).length ≤ t.length :=
      (List.dropWhile_sublist (fun x => !wsB x)).length_le
    omega

/-- One step of newline-run emission for the markdown cleanup replace
`markdown.replace(/\n{3,}/g, "\n\n")`: a pending run of `k` newlines is
emitted as two newlines when `k ≥ 3`, verbatim otherwise. -/
def emitRun (k : Nat) : List Char :=
  if 3 ≤ k then ['\n', '\n'] else List.replicate k '\n'

/-- Scanner for `replace(/\n{3,}/g, "\n\n")`: `k` counts the newlines of the
run currently being read. -/
def cnlGo : Nat → List Char → List Char
  | k, [] => emitRun k
  | k, c :: t =>
    if c = '\n' then cnlGo (k + 1) t
    else emitRun k ++ (c :: cnlGo 0 t)

/-- The markdown converter's blank-line normalization
`markdown.replace(/\n{3,}/g, "\n\n")` (every run of three or more
newlines becomes exactly two). -/
def collapseNL (l : List Char) : List Char :=
  cnlGo 0 l

/-- Does a character list contain three consecutive newlines (that is, a run
of two or more blank lines)? -/
def hasTriple : List Char → Bool
  | a :: b :: c :: t => (a = '\n' && b = '\n' && c = '\n') || hasTriple (b :: c :: t)
  | _ => false

/-- Matcher for the empty-link regex `\[]\([^)]*\)` at the head of a list:
on success, returns the remainder after the match. -/
def elMatch : List Char → Option (List Char)
  | '[' :: ']' :: '(' :: rest =>
    let after := rest.dropWhile (fun c => c ≠ ')')
    if after.isEmpty then none else some after.tail
  | _ => none

/-- Fuel-driven scanner for `replace(/\[]\([^)]*\)/g, "")`: at each position
either the empty-link pattern matches (and is dropped, scanning resuming
after it) or the scanner advances one character. -/
def selGo : Nat → List Char → List Char
  | 0, l => l
  | fuel + 1, l =>
    match elMatch l with
    | some r => selGo fuel r
    | none =>
      match l with
      | [] => []
      | c :: t => c :: selGo fuel t

/-- The markdown converter's empty-link removal
`markdown.replace(/\[]\([^)]*\)/g, "")`. -/
def stripEL (l : List Char) : List Char :=
  selGo l.length l

/-- Is the empty-link pattern matched at some position of the list? -/
def hasEL : List Char → Bool
  | [] => (elMatch []).isSome
  | c :: t => (elMatch (c :: t)).isSome || hasEL t

/-- Matcher for the image-spacing regex
`!\[([^\]]*)\]\(([^)]+)\)\s*\n\s*\n` at the head of a list: on success,
returns the alt text, the source and the remainder after the match (the
match consumes the whitespace run up to and including its last newline). -/
def imgMatch : List Char → Option (List Char × List Char × List Char)
  | '!' :: '[' :: rest =>
    let altPart := rest.takeWhile (fun c => c ≠ ']')
    match rest.dropWhile (fun c => c ≠ ']') with
    | ']' :: '(' :: rest2 =>
      let srcPart := rest2.takeWhile (fun c => c ≠ ')')
      if srcPart.isEmpty then none
      else
        match rest2.dropWhile (fun c => c ≠ ')') with
        | ')' :: rest3 =>
          let wsRun := rest3.takeWhile wsB
          if 2 ≤ (wsRun.filter (fun c => c = '\n')).length then
            let tailNoNL := (wsRun.reverse.takeWhile (fun c => c ≠ '\n')).reverse
            some (altPart, srcPart, tailNoNL ++ rest3.dropWhile wsB)
          else none
        | _ => none
    | _ => none
  | _ => none

/-- Fuel-driven scanner for
`replace(/!\[([^\]]*)\]\(([^)]+)\)\s*\n\s*\n/g, "![$1]($2)\n\n")`. -/
def imgGo : Nat → List Char → List Char
  | 0, l => l
  | fuel + 1, l =>
    match imgMatch l with
    | some (alt, src, r) =>
      '!' :: '[' :: (alt ++ ']' :: '(' :: (src ++ ')' :: '\n' :: '\n' :: imgGo fuel r))
    | none =>
      match l with
      | [] => []
      | c :: t => c :: imgGo fuel t

/-- The markdown converter's image-spacing normalization. -/
def imgFix (l : List Char) : List Char :=
  imgGo l.length l

/-- Is the image-spacing pattern matched at some position of the list? -/
def hasImg : List Char → Bool
  | [] => (imgMatch []).isSome
  | c :: t => (imgMatch (c :: t)).isSome || hasImg t

/-- The plain-text fallback's tag stripper
`content.replace(/<[^>]*>/g, "")`: a `<` and everything up to the next `>`
is dropped; a `<` with no later `>` stays (the regex cannot match there). -/
def stGo : Nat → List Char → List Char
  | 0, l => l
  | _ + 1, [] => []
  | fuel + 1, c :: t =>
    if c = '<' then
      let after := t.dropWhile (fun x => x ≠ '>')
      if after.isEmpty then c :: stGo fuel t
      else stGo fuel after.tail
    else c :: stGo fuel t

/-- `content.replace(/<[^>]*>/g, "")` from the markdown converter's
fallback path. -/
def stripTags (l : List Char) : List Char :=
  stGo l.length l

/-- `replace(/\s+/g, " ")`: every maximal whitespace run becomes a single
space.  The flag records whether the previous character was whitespace. -/
def cwGo : Bool → List Char → List Char
  | _, [] => []
  | inWs, c :: t =>
    if wsB c then
      if inWs then cwGo true t else ' ' :: cwGo true t
    else c :: cwGo false t

/-- The whitespace-collapsing replace `s.replace(/\s+/g, " ")`. -/
def collapseWs (l : List Char) : List Char :=
  cwGo false l

/-- `replace(/"/g, "\\\"")`: escape every double quote for embedding in a
quoted front-matter value. -/
def escQuotes (s : String) : String :=
  ⟨s.data.flatMap (fun c => if c = '"' then ['\\', '"'] else [c])⟩

/-- JavaScript `Array.prototype.join(sep)`. -/
def jsJoin (sep : String) : List String → String
  | [] => ""
  | s :: t => t.foldl (fun acc x => acc ++ sep ++ x) s

/-- JavaScript `Array.prototype.filter(Boolean)` over an array of strings
and nulls: keeps exactly the non-null, non-empty entries. -/
def filterTruthy (items : List (Option String)) : List String :=
  (items.filterMap id).filter (fun s => !s.isEmpty)

/-- The `ExtractedContent` record from `src/types/index.ts`. -/
structure ExtractedContent where
  title : String
  content : String
  author : String
  description : String
  url : String
  domain : String
  timestamp : String
  wordCount : Nat
  excerpt : String
deriving Repr, DecidableEq

/-- The front-matter line array built by `createFrontmatter` in the markdown
converter, before `filter(Boolean)`: conditional entries are `none`
(JavaScript `null`) when their value is empty. -/
def fmItems (d : ExtractedContent) : List (Option String) :=
  [some "---",
   some ("url: \"" ++ d.url ++ "\""),
   some ("title: \"" ++ escQuotes d.title ++ "\""),
   some ("timestamp: \"" ++ d.timestamp ++ "\""),
   some ("domain: \"" ++ d.domain ++ "\""),
   if !d.author.isEmpty then some ("author: \"" ++ escQuotes d.author ++ "\"") else none,
   if !d.description.isEmpty then some ("description: \"" ++ escQuotes d.description ++ "\"") else none,
   some ("word_count: " ++ toString d.wordCount),
   if !d.excerpt.isEmpty then some ("excerpt: \"" ++ escQuotes d.excerpt ++ "\"") else none,
   some "---",
   some ""]

/-- The surviving front-matter lines (`filter(Boolean)` drops the `null`
entries and the final empty string). -/
def fmLines (d : ExtractedContent) : List String :=
  filterTruthy (fmItems d)

/-- `createFrontmatter` from the markdown converter:
the truthy lines joined with newlines. -/
def createFrontmatter (d : ExtractedContent) : String :=
  jsJoin "\n" (fmLines d)

/-- The key of a front-matter line: the characters before its first colon. -/
def keyOf (line : String) : String :=
  ⟨line.data.takeWhile (fun c => c ≠ ':')⟩

/-- The keys of the emitted front-matter lines. -/
def fmKeys (d : ExtractedContent) : List String :=
  (fmLines d).map keyOf

/-- Hostname view of a parsed URL. -/
structure URLInfo where
  hostname : String
deriving Repr, DecidableEq

/-- Modelled from the spec: the host environment's WHATWG `URL` constructor,
which is not part of this repository.  Simplified to `scheme://host...`
parsing: the constructor succeeds on an alphabetic scheme followed by
`://` and a non-empty host (read up to the first `/`, `?`, `#` or `:`),
and throws (here: `none`) otherwise. -/
def urlParse (s : String) : Option URLInfo :=
  let l := s.data
  let scheme := l.takeWhile (fun c => c ≠ ':')
  if scheme.isEmpty || !(scheme.all (fun c => c.isAlpha)) then none
  else
    match l.dropWhile (fun c => c ≠ ':') with
    | ':' :: '/' :: '/' :: r =>
      let host := r.takeWhile (fun c => c ≠ '/' && c ≠ '?' && c ≠ '#' && c ≠ ':')
      if host.isEmpty then none else some ⟨⟨host⟩⟩
    | _ => none

/-- `getDomain` from the content extractor:
`try { return new URL(url).hostname } catch { return "unknown" }`. -/
def getDomain (url : String) : String :=
  match urlParse url with
  | some u => u.hostname
  | none => "unknown"

/-- A DOM element as the extractor observes it: an optional `content`
attribute and its text content. -/
structure Elem where
  attrContent : Option String
  textContent : String

/-- `element.content || element.textContent || ""` (equally
`element.getAttribute("content") || element.textContent`): the attribute
when present and non-empty, the text content otherwise. -/
def elemVal (e : Elem) : String :=
  match e.attrContent with
  | some a => if a.isEmpty then e.textContent else a
  | none => e.textContent

/-- A document snapshot as the extraction pipeline observes it.  `query`
models `document.querySelector`; `defud`, `sanitize` and `plainOf` model
the external defuddle, DOMPurify and DOMParser libraries, which are not
part of this repository — each either returns a string or throws. -/
structure Doc where
  title : String
  href : String
  bodyHTML : String
  bodyText : String
  now : String
  query : String → Option Elem
  defud : Except Unit String
  sanitize : String → Except Unit String
  plainOf : String → Except Unit String

/-- The ordered title candidate selectors of `getTitle` in `content.js`. -/
def titleSelectors : List String :=
  ["h1", "title", "[property=\"og:title\"]", "[name=\"twitter:title\"]",
   ".title", ".article-title"]

/-- The selector loop of `getTitle`: the first candidate whose trimmed
value is non-empty with length greater than 3. -/
def firstTitle (d : Doc) : List String → Option String
  | [] => none
  | sel :: rest =>
    match d.query sel with
    | none => firstTitle d rest
    | some e =>
      let t := jsTrim (elemVal e)
      if !t.isEmpty && 3 < t.length then some t else firstTitle d rest

/-- `getTitle` from `content.js`: try the ordered candidate selectors, else
fall back to `document.title || "Untitled Page"`. -/
def getTitle (d : Doc) : String :=
  match firstTitle d titleSelectors with
  | some t => t
  | none => if d.title.isEmpty then "Untitled Page" else d.title

/-- The claim's ordered candidate list for title resolution, as frozen:
an `article h1` probe first, then the generic h1/title tag, then the
og:title and twitter:title metas, then the title classes. -/
def titleSelectorsClaim : List String :=
  ["article h1", "h1", "title", "[property=\"og:title\"]",
   "[name=\"twitter:title\"]", ".title", ".article-title"]

/-- The trimmed candidate values of a selector list, in order. -/
def titleCandidatesOf (sels : List String) (d : Doc) : List String :=
  sels.filterMap (fun sel => (d.query sel).map (fun e => jsTrim (elemVal e)))

/-- The claim's description of title resolution, following its words: try
the claim's ordered candidate list (`article h1` first), accept the first
candidate whose trimmed text has length strictly greater than 3, else the
document's own title string, or the constant `"Untitled Page"`. -/
def titleSpec (d : Doc) : String :=
  match (titleCandidatesOf titleSelectorsClaim d).find? (fun t => 3 < t.length) with
  | some t => t
  | none => if d.title.isEmpty then "Untitled Page" else d.title

/-- The amended claim's description of title resolution: the code's ordered
candidate list (a single generic `h1` probe first, no separate
`article h1` candidate), the same acceptance threshold (trimmed length
strictly greater than 3) and the same fallback. -/
def titleAmendedSpec (d : Doc) : String :=
  match (titleCandidatesOf titleSelectors d).find? (fun t => 3 < t.length) with
  | some t => t
  | none => if d.title.isEmpty then "Untitled Page" else d.title

/-- A document separating the claim's resolution order from the code's: the
first generic h1 is the short chrome text `"Nav"`, a qualifying
`article h1` exists, and the title tag also qualifies. -/
def cexTitleDoc : Doc :=
  { title := "Fallback", href := "", bodyHTML := "", bodyText := "", now := "",
    query := fun sel =>
      if sel = "article h1" then some (Elem.mk none "Article Heading")
      else if sel = "h1" then some (Elem.mk none "Nav")
      else if sel = "title" then some (Elem.mk none "Doc Title")
      else none,
    defud := .error (), sanitize := fun s => .ok s, plainOf := fun s => .ok s }

/-- The ordered author candidate selectors of `extractAuthor`. -/
def authorSelectors : List String :=
  ["meta[name=\"author\"]", "meta[property=\"article:author\"]",
   "meta[name=\"twitter:creator\"]", "[rel=\"author\"]", ".author",
   ".byline", ".post-author"]

/-- `extractAuthor` from the content extractor: the first selector whose
element carries non-blank content, trimmed; empty string otherwise. -/
def firstAuthor (d : Doc) : List String → String
  | [] => ""
  | sel :: rest =>
    match d.query sel with
    | none => firstAuthor d rest
    | some e =>
      if !(jsTrim (elemVal e)).isEmpty then jsTrim (elemVal e)
      else firstAuthor d rest

/-- `extractAuthor` entry point. -/
def extractAuthor (d : Doc) : String :=
  firstAuthor d authorSelectors

/-- `extractMetaContent` from the content extractor:
`document.querySelector('meta[name=...], meta[property=...]')?.getAttribute("content") || ""`. -/
def extractMetaContent (d : Doc) (name : String) : String :=
  match d.query ("meta[name=\"" ++ name ++ "\"], meta[property=\"" ++ name ++ "\"]") with
  | some e => e.attrContent.getD ""
  | none => ""

/-- `extractDescription` from the content extractor. -/
def extractDescription (d : Doc) : String :=
  if !(extractMetaContent d "description").isEmpty then extractMetaContent d "description"
  else if !(extractMetaContent d "og:description").isEmpty then extractMetaContent d "og:description"
  else if !(extractMetaContent d "twitter:description").isEmpty then extractMetaContent d "twitter:description"
  else ""

/-- `createExcerpt` from the content extractor: collapse whitespace, trim,
return unchanged when at most `maxLength` characters, else cut at
`maxLength`, back up to the last space when there is one, and append an
ellipsis. -/
def createExcerpt (text : String) (maxLength : Nat) : String :=
  let cleanText := jsTrim ⟨collapseWs text.data⟩
  if cleanText.length ≤ maxLength then cleanText
  else
    let truncated := cleanText.data.take maxLength
    let beforeLastSpace := (truncated.reverse.dropWhile (fun c => c ≠ ' ')).tail.reverse
    if (truncated.filter (fun c => c = ' ')).isEmpty then ⟨truncated ++ "...".data⟩
    else ⟨beforeLastSpace ++ "...".data⟩

/-- The `try` block of `extractPageContent` in the content extractor:
defuddle, the under-100-character fallback to the body markup, DOMPurify
sanitization and the DOMParser plain-text projection, any of which may
throw. -/
def tryExtract (d : Doc) (title author description url domain timestamp : String) :
    Except Unit ExtractedContent := do
  let c0 ← d.defud
  let content1 := if c0.isEmpty || (jsTrim c0).length < 100 then d.bodyHTML else c0
  let content ← d.sanitize content1
  let plainText ← d.plainOf content
  pure { title := title, content := content, author := author,
         description := description, url := url, domain := domain,
         timestamp := timestamp, wordCount := countWords plainText,
         excerpt := createExcerpt plainText 200 }

/-- `extractPageContent` from the content extractor: metadata is gathered
first, then the extraction pipeline runs inside a `try`; on any failure the
operation degrades to a record built from the document title and the body
of the live document. -/
def extractPageContent (d : Doc) : ExtractedContent :=
  let url := d.href
  let title := if d.title.isEmpty then "Untitled" else d.title
  let timestamp := d.now
  let domain := getDomain url
  let author := extractAuthor d
  let description := extractDescription d
  match tryExtract d title author description url domain timestamp with
  | .ok r => r
  | .error _ =>
    { title := title, content := d.bodyHTML, author := author,
      description := description, url := url, domain := domain,
      timestamp := timestamp, wordCount := countWords d.bodyText,
      excerpt := createExcerpt d.bodyText 200 }

/-- `convertToMarkdown` from the markdown converter.  `td` is the turndown
transduction engine (an external library, which may throw) and `pu` the
`processUrls` absolutization step; both are inputs here so that the
conversion's own control flow — the post passes on success and the
tag-stripping fallback on failure — is the subject. -/
def convertToMarkdown (td : String → Except Unit String)
    (pu : String → String → String) (data : ExtractedContent) : String :=
  let processedHtml := pu data.content data.url
  match td processedHtml with
  | .ok md0 =>
    let md1 : String := ⟨collapseNL md0.data⟩
    let md2 : String := ⟨stripEL md1.data⟩
    let md3 : String := ⟨imgFix md2.data⟩
    createFrontmatter data ++ "\n" ++ jsTrim md3
  | .error _ =>
    let fallbackContent := jsTrim ⟨collapseWs (stripTags data.content.data)⟩
    createFrontmatter data ++ "\n" ++ fallbackContent

/-- A table cell (`td`/`th`) with its attributes, as the custom table rule
observes it. -/
structure TCell where
  tag : String
  attrs : List (String × String)
  inner : String
deriving Repr, DecidableEq

/-- A table as the custom table rule observes it. -/
structure TableNode where
  rows : List (List TCell)
deriving Repr, DecidableEq

/-- `cell.hasAttribute(name)`. -/
def hasAttr (c : TCell) (name : String) : Bool :=
  c.attrs.any (fun p => p.1 = name)

/-- `table.querySelectorAll("td, th")`: all cells of the table. -/
def cellsOf (t : TableNode) : List TCell :=
  t.rows.flatten

/-- Serialized form of one cell, for `table.outerHTML`. -/
def cellHTML (c : TCell) : String :=
  "<" ++ c.tag ++
    (c.attrs.foldl (fun acc p => acc ++ " " ++ p.1 ++ "=\"" ++ p.2 ++ "\"") "") ++
    ">" ++ c.inner ++ "</" ++ c.tag ++ ">"

/-- `table.outerHTML`. -/
def tableOuterHTML (t : TableNode) : String :=
  "<table>" ++
    jsJoin "" (t.rows.map (fun r => "<tr>" ++ jsJoin "" (r.map cellHTML) ++ "</tr>")) ++
    "</table>"

/-- The complex-structure test of the custom table rule: some cell carries a
`colspan` or `rowspan` attribute. -/
def hasComplexStructure (t : TableNode) : Bool :=
  (cellsOf t).any (fun c => hasAttr c "colspan" || hasAttr c "rowspan")

/-- The custom table rule's replacement function: complex tables are emitted
as a verbatim raw block of their own HTML, simple tables keep the
pipe-table `content` produced by the GFM rules. -/
def tableRule (t : TableNode) (content : String) : String :=
  if hasComplexStructure t then "\n\n" ++ tableOuterHTML t ++ "\n\n" else content

mutual
/-- A markup fragment node: a text node or an element with tag, attributes
and children. -/
inductive HNode where
  | text (s : String)
  | elem (tag : String) (attrs : List (String × String)) (kids : HList)

/-- Children list of a fragment node. -/
inductive HList where
  | nil
  | cons (h : HNode) (t : HList)
end

mutual
/-- Plain-text projection of a fragment node. -/
def nodeText : HNode → String
  | .text s => s
  | .elem _ _ kids => listText kids

/-- Plain-text projection of a children list. -/
def listText : HList → String
  | .nil => ""
  | .cons h t => nodeText h ++ listText t
end

/-- Attribute lookup on a fragment element. -/
def getAttrV (attrs : List (String × String)) (name : String) : Option String :=
  (attrs.find? (fun p => p.1 = name)).map (fun p => p.2)

/-- The trimmed texts of the `li` children of a list element. -/
def liTexts : HList → List String
  | .nil => []
  | .cons (HNode.elem "li" _ kids) t => jsTrim (listText kids) :: liTexts t
  | .cons _ t => liTexts t

/-- The language tag of a fenced block: a nested `code` child carrying a
`language-*` class token. -/
def preLang : HList → String
  | .nil => ""
  | .cons (HNode.elem "code" attrs _) _ =>
    match getAttrV attrs "class" with
    | some cl => if cl.startsWith "language-" then cl.drop 9 else ""
    | none => ""
  | .cons _ t => preLang t

mutual
/-- Modelled from the spec: the Markup Transducer's recursive rule table.
The transduction engine itself (turndown) is an external library absent
from this repository; the spec's §4.2 algorithm is embedded instead:
depth-first traversal, text nodes emitted verbatim, elements dispatched on
tag name to the emission table, unknown tags passing through to their
children.  (The table rules are modelled separately by `tableRule`.) -/
def serializeSpec : HNode → String
  | .text s => s
  | .elem tag attrs kids =>
    if tag = "h1" then "\n# " ++ jsTrim (listText kids) ++ "\n\n"
    else if tag = "h2" then "\n## " ++ jsTrim (listText kids) ++ "\n\n"
    else if tag = "h3" then "\n### " ++ jsTrim (listText kids) ++ "\n\n"
    else if tag = "h4" then "\n#### " ++ jsTrim (listText kids) ++ "\n\n"
    else if tag = "h5" then "\n##### " ++ jsTrim (listText kids) ++ "\n\n"
    else if tag = "h6" then "\n###### " ++ jsTrim (listText kids) ++ "\n\n"
    else if tag = "p" then "\n" ++ serializeList kids ++ "\n\n"
    else if tag = "strong" || tag = "b" then "**" ++ serializeList kids ++ "**"
    else if tag = "em" || tag = "i" then "*" ++ serializeList kids ++ "*"
    else if tag = "del" || tag = "s" || tag = "strike" then "~~" ++ serializeList kids ++ "~~"
    else if tag = "code" then "`" ++ listText kids ++ "`"
    else if tag = "pre" then "\n```" ++ preLang kids ++ "\n" ++ listText kids ++ "\n```\n\n"
    else if tag = "a" then "[" ++ serializeList kids ++ "](" ++ (getAttrV attrs "href").getD "#" ++ ")"
    else if tag = "img" then "![" ++ (getAttrV attrs "alt").getD "" ++ "](" ++ (getAttrV attrs "src").getD "" ++ ")"
    else if tag = "br" then "\n"
    else if tag = "hr" then "\n---\n"
    else if tag = "mark" then "==" ++ serializeList kids ++ "=="
    else if tag = "blockquote" then
      "\n" ++ jsJoin "\n" (((serializeList kids).splitOn "\n").map (fun ln => "> " ++ ln)) ++ "\n\n"
    else if tag = "ul" then
      "\n" ++ String.join ((liTexts kids).map (fun s => "- " ++ s ++ "\n")) ++ "\n"
    else if tag = "ol" then
      "\n" ++ String.join (((liTexts kids).enum).map (fun p => toString (p.1 + 1) ++ ". " ++ p.2 ++ "\n")) ++ "\n"
    else serializeList kids

/-- Serialization of a children list. -/
def serializeList : HList → String
  | .nil => ""
  | .cons h t => serializeSpec h ++ serializeList t
end

/-- Modelled from the spec: re-parsing a transduced body that contains no
markup (no `<`) yields a single text node. -/
def parseBody (s : String) : HNode :=
  .text s

/-- The transduced body of a fragment: the spec-modelled serialization
followed by the converter's own post passes (blank-line collapsing, then
empty-link removal, then image-spacing normalization, then trim — the
order of the markdown converter source). -/
def transduceBody (f : HNode) : String :=
  jsTrim ⟨imgFix (stripEL (collapseNL (serializeSpec f).data))⟩

/-- A node of the live DOM store: tag, class and style attributes, link and
image attributes, own text, and the indices of its children.  The store is
a list of cells; a node's identity is its index. -/
structure DCell where
  tag : String
  className : String
  styleAttr : String
  href : Option String
  src : Option String
  text : String
  kids : List Nat
deriving Repr, DecidableEq

/-- The DOM store: node cells addressed by index.  Indices at or beyond the
length do not exist (`getElem?` is `none` there). -/
abbrev DStore := List DCell

/-- A fresh empty cell (allocated when a clone target does not exist). -/
def emptyCell : DCell :=
  { tag := "", className := "", styleAttr := "", href := none, src := none,
    text := "", kids := [] }

/-- Is `sub` a substring of `s` (for the `[style*=...]` selectors)? -/
def hasSubstr (s sub : String) : Bool :=
  decide (sub.data <:+: s.data)

/-- Does the element's class attribute carry the given token (for the `.x`
class selectors)? -/
def classHas (c : DCell) (name : String) : Bool :=
  (c.className.splitOn " ").contains name

/-- The removal predicate of `cleanContent` in `content.js`: script, style,
noscript, iframe, embed and object elements, the ad / share / newsletter
classes, and elements hidden by inline style. -/
def unwantedClean (c : DCell) : Bool :=
  c.tag = "script" || c.tag = "style" || c.tag = "noscript" ||
  c.tag = "iframe" || c.tag = "embed" || c.tag = "object" ||
  classHas c "ads" || classHas c "advertisement" ||
  classHas c "social-share" || classHas c "newsletter" ||
  hasSubstr c.styleAttr "display: none" || hasSubstr c.styleAttr "visibility: hidden"

/-- The removal predicate of the `getMainContent` body fallback in
`content.js`: navigation, header, footer, aside, script and style
elements and the structural-noise classes. -/
def unwantedBody (c : DCell) : Bool :=
  c.tag = "nav" || c.tag = "header" || c.tag = "footer" || c.tag = "aside" ||
  c.tag = "script" || c.tag = "style" ||
  classHas c "navigation" || classHas c "nav" || classHas c "header" ||
  classHas c "footer" || classHas c "sidebar" || classHas c "ads" ||
  classHas c "advertisement" || classHas c "social" || classHas c "comments"

/-- The relative-URL rewrite of `cleanContent`: an `href` or `src` not
starting with `http` (and, for links, not with `//`; for images the same
check in the source uses `//` as well) is resolved against the page
address. -/
def absolutizeCell (resolve : String → String) (c : DCell) : DCell :=
  { c with
    href := match c.href with
      | some h => if !(h.startsWith "http") && !(h.startsWith "//") then some (resolve h) else some h
      | none => none,
    src := match c.src with
      | some h => if !(h.startsWith "http") && !(h.startsWith "//") then some (resolve h) else some h
      | none => none }

mutual
/-- `element.cloneNode(true)`: deep-copy the subtree rooted at `id`,
appending fresh cells to the store; children pointers of the copies are
redirected to the fresh copies.  Returns the extended store and the index
of the clone root.  Fuel bounds the traversal depth. -/
def cloneAux : Nat → DStore → Nat → DStore × Nat
  | 0, s, _ => (s ++ [emptyCell], s.length)
  | fuel + 1, s, id =>
    match s[id]? with
    | none => (s ++ [emptyCell], s.length)
    | some c =>
      let p := cloneKids fuel s c.kids
      (p.1 ++ [{ c with kids := p.2 }], p.1.length)
termination_by fuel _ _ => (fuel, 0)

/-- Clone each child in turn, threading the growing store. -/
def cloneKids : Nat → DStore → List Nat → DStore × List Nat
  | _, s, [] => (s, [])
  | fuel, s, k :: t =>
    let p := cloneAux fuel s k
    let q := cloneKids fuel p.1 t
    (q.1, p.2 :: q.2)
termination_by fuel _ l => (fuel, l.length + 1)
end

mutual
/-- Generic in-place walk from a root index: rewrite the visited cell with
`upd` (which may drop children, as element removal does, or rewrite
attributes) and recurse into the children the rewrite kept. -/
def walkUpdate (upd : DStore → DCell → DCell) : Nat → DStore → Nat → DStore
  | 0, s, _ => s
  | fuel + 1, s, r =>
    match s[r]? with
    | none => s
    | some c =>
      let c2 := upd s c
      walkKids upd fuel (s.set r c2) c2.kids
termination_by fuel _ _ => (fuel, 0)

/-- Walk each child in turn, threading the store. -/
def walkKids (upd : DStore → DCell → DCell) : Nat → DStore → List Nat → DStore
  | _, s, [] => s
  | fuel, s, k :: t => walkKids upd fuel (walkUpdate upd fuel s k) t
termination_by fuel _ l => (fuel, l.length + 1)
end

/-- The cell rewrite performing `querySelectorAll(unwanted).forEach(el =>
el.remove())`: children matching the predicate are detached. -/
def removeUpd (bad : DCell → Bool) (s : DStore) (c : DCell) : DCell :=
  { c with kids := c.kids.filter (fun k =>
      match s[k]? with
      | some kc => !bad kc
      | none => true) }

mutual
/-- Read-only serialization of a subtree (for `innerHTML`). -/
def cellMarkup : Nat → DStore → Nat → String
  | 0, _, _ => ""
  | fuel + 1, s, id =>
    match s[id]? with
    | none => ""
    | some c =>
      "<" ++ c.tag ++ ">" ++ c.text ++ kidsMarkup fuel s c.kids ++ "</" ++ c.tag ++ ">"
termination_by fuel _ _ => (fuel, 0)

/-- Read-only serialization of a child list. -/
def kidsMarkup : Nat → DStore → List Nat → String
  | _, _, [] => ""
  | fuel, s, k :: t => cellMarkup fuel s k ++ kidsMarkup fuel s t
termination_by fuel _ l => (fuel, l.length + 1)
end

/-- `element.innerHTML`: the serialized children (and own text) of a cell. -/
def innerMarkup (fuel : Nat) (s : DStore) (id : Nat) : String :=
  match s[id]? with
  | none => ""
  | some c => c.text ++ kidsMarkup fuel s c.kids

/-- `cleanContent` from `content.js`: clone the chosen region, remove the
unwanted elements from the clone, absolutize its link and image targets,
and serialize the clone.  The live store cells are only read. -/
def cleanContent (fuel : Nat) (resolve : String → String) (s : DStore) (e : Nat) :
    DStore × String :=
  let p := cloneAux fuel s e
  let s2 := walkUpdate (removeUpd unwantedClean) fuel p.1 p.2
  let s3 := walkUpdate (fun _ c => absolutizeCell resolve c) fuel s2 p.2
  (s3, innerMarkup fuel s3 p.2)

/-- The body-fallback path of `getMainContent`: clone the body, strip the
structural-noise elements from the clone, then run `cleanContent` on the
clone. -/
def bodyFallback (fuel : Nat) (resolve : String → String) (s : DStore) (bodyId : Nat) :
    DStore × String :=
  let p := cloneAux fuel s bodyId
  let s2 := walkUpdate (removeUpd unwantedBody) fuel p.1 p.2
  cleanContent fuel resolve s2 p.2

/-- Concrete document whose extraction pipeline raises. -/
def witnessDoc : Doc :=
  { title := "My Page", href := "https://ex.com/a", bodyHTML := "<p>hi</p>",
    bodyText := "hi there", now := "ts", query := fun _ => none,
    defud := .error (), sanitize := fun s => .ok s, plainOf := fun s => .ok s }

/-- Concrete record and throwing engine for the fallback path. -/
def witnessData : ExtractedContent :=
  ExtractedContent.mk "T" "<p>a b</p>" "" "" "u" "d" "ts" 2 ""

/-- Concrete table with a spanning cell. -/
def witnessTable : TableNode :=
  TableNode.mk [[TCell.mk "td" [("rowspan", "2")] "x", TCell.mk "td" [] "y"]]

/-- A fragment whose transduced body changes when transduced again: a
paragraph, an empty link, a paragraph. -/
def cexFrag : HNode :=
  HNode.elem "div" [] (HList.cons (HNode.elem "p" [] (HList.cons (HNode.text "a") HList.nil))
    (HList.cons (HNode.elem "a" [("href", "x")] HList.nil)
      (HList.cons (HNode.elem "p" [] (HList.cons (HNode.text "b") HList.nil)) HList.nil)))

/-- Every cell stored at an index at or above `B` points only to children at
or above `B` (the cloned region is closed: it never points back into the
live document's cells). -/
def ClosedAbove (B : Nat) (s : DStore) : Prop :=
  ∀ i c, B ≤ i → s[i]? = some c → ∀ k ∈ c.kids, B ≤ k

theorem runCount_nil : runCount [] = 0 := by
  simp [runCount]

theorem runCount_cons_ws {c : Char} (t : List Char) (h : wsB c = true) :
    runCount (c :: t) = runCount t := by
  simp [runCount, h]

theorem runCount_cons_nws {c : Char} (t : List Char) (h : wsB c = false) :
    runCount (c :: t) = 1 + runCount (t.dropWhile (fun x => !wsB x)) := by
  simp [runCount, h]

theorem runCount_dropWhile_ws (l : List Char) :
    runCount (l.dropWhile wsB) = runCount l := by
  induction l with
  | nil => rfl
  | cons c t ih =>
    by_cases h : wsB c
    · rw [List.dropWhile_cons_of_pos h, ih, runCount_cons_ws t h]
    · rw [List.dropWhile_cons_of_neg (by simp [h])]

theorem runCount_allws (w : List Char) (hw : ∀ c ∈ w, wsB c) :
    runCount w = 0 := by
  induction w with
  | nil => exact runCount_nil
  | cons c t ih =>
    rw [runCount_cons_ws t (hw c (by simp))]
    exact ih (fun x hx => hw x (by simp [hx]))

theorem runCount_append_ws (l w : List Char) (hw : ∀ c ∈ w, wsB c) :
    runCount (l ++ w) = runCount l := by
  induction l using runCount.induct with
  | case1 => rw [List.nil_append, runCount_nil, runCount_allws w hw]
  | case2 c t hws ih =>
    rw [List.cons_append, runCount_cons_ws _ hws, runCount_cons_ws _ hws]
    exact ih
  | case3 c t hws ih =>
    rw [List.cons_append, runCount_cons_nws _ (by simpa using hws),
      runCount_cons_nws _ (by simpa using hws)]
    have hd : (t ++ w).dropWhile (fun x => !wsB x) =
        if ((t.dropWhile (fun x => !wsB x)).isEmpty : Bool) then w.dropWhile (fun x => !wsB x)
        else t.dropWhile (fun x => !wsB x) ++ w :=
      List.dropWhile_append
    by_cases he : (t.dropWhile (fun x => !wsB x)).isEmpty
    · rw [hd]
      simp only [he, if_true]
      have h1 : w.dropWhile (fun x => !wsB x) = w := by
        cases w with
        | nil => rfl
        | cons a b =>
          apply List.dropWhile_cons_of_neg
          simp [hw a (by simp)]
      have h2 : t.dropWhile (fun x => !wsB x) = [] := by
        simpa [List.isEmpty_iff] using he
      rw [h1, h2, runCount_allws w hw, runCount_nil]
    · rw [hd]
      simp only [he, if_false, Bool.false_eq_true]
      omega

theorem runCount_trimL (l : List Char) :
    runCount (jsTrimL l) = runCount l := by
  unfold jsTrimL
  set m := l.dropWhile wsB with hm
  have hsplit : m = (m.reverse.dropWhile wsB).reverse ++ (m.reverse.takeWhile wsB).reverse := by
    have h1 : m.reverse.takeWhile wsB ++ m.reverse.dropWhile wsB = m.reverse :=
      List.takeWhile_append_dropWhile wsB m.reverse
    calc m = m.reverse.reverse := (List.reverse_reverse m).symm
    _ = (m.reverse.takeWhile wsB ++ m.reverse.dropWhile wsB).reverse := by rw [h1]
    _ = (m.reverse.dropWhile wsB).reverse ++ (m.reverse.takeWhile wsB).reverse := by
        rw [List.reverse_append]
  have hws : ∀ c ∈ (m.reverse.takeWhile wsB).reverse, wsB c := by
    intro c hc
    rw [List.mem_reverse] at hc
    exact List.mem_takeWhile_imp hc
  calc runCount (m.reverse.dropWhile wsB).reverse
      = runCount ((m.reverse.dropWhile wsB).reverse ++ (m.reverse.takeWhile wsB).reverse) :=
        (runCount_append_ws _ _ hws).symm
    _ = runCount m := by rw [← hsplit]
    _ = runCount l := runCount_dropWhile_ws l

theorem tokens_nil : tokens [] = [] := by
  simp [tokens]

theorem tokens_cons_ws {c : Char} (t : List Char) (h : wsB c = true) :
    tokens (c :: t) = tokens t := by
  simp [tokens, h]

theorem tokens_cons_nws {c : Char} (t : List Char) (h : wsB c = false) :
    tokens (c :: t) =
      (c :: t.takeWhile (fun x => !wsB x)) :: tokens (t.dropWhile (fun x => !wsB x)) := by
  simp [tokens, h]

theorem tokens_length (l : List Char) : (tokens l).length = runCount l := by
  induction l using runCount.induct with
  | case1 => rw [tokens_nil, runCount_nil, List.length_nil]
  | case2 c t hws ih => rw [tokens_cons_ws t hws, runCount_cons_ws t hws, ih]
  | case3 c t hws ih =>
    rw [tokens_cons_nws t (by simpa using hws), runCount_cons_nws t (by simpa using hws),
      List.length_cons, ih]
    omega

theorem splitRuns_nil : splitRuns [] = [[]] := by
  simp [splitRuns]

theorem splitRuns_cons_ws {c : Char} (t : List Char) (h : wsB c = true) :
    splitRuns (c :: t) = [] :: splitRuns (t.dropWhile wsB) := by
  simp [splitRuns, h]

theorem splitRuns_cons_nws {c : Char} (t : List Char) (h : wsB c = false) :
    splitRuns (c :: t) = consHead c (splitRuns t) := by
  simp [splitRuns, h]

theorem splitRuns_ne_nil (l : List Char) : splitRuns l ≠ [] := by
  cases l with
  | nil => rw [splitRuns_nil]; simp
  | cons c t =>
    by_cases h : wsB c
    · rw [splitRuns_cons_ws t h]; simp
    · rw [splitRuns_cons_nws t (by simpa using h)]
      cases hs : splitRuns t with
      | nil => simp [consHead]
      | cons a b => simp [consHead]

theorem splitRuns_count (l : List Char) :
    (((splitRuns l).filter (fun w => !w.isEmpty)).length = runCount l) ∧
    (∀ c, wsB c = false →
      ((consHead c (splitRuns l)).filter (fun w => !w.isEmpty)).length =
        1 + runCount (l.dropWhile (fun x => !wsB x))) := by
  induction l using splitRuns.induct with
  | case1 =>
    refine ⟨by rw [splitRuns_nil, runCount_nil]; simp, ?_⟩
    intro c hc
    rw [splitRuns_nil]
    simp [consHead, runCount_nil]
  | case2 c t hws ih =>
    constructor
    · rw [splitRuns_cons_ws t hws, runCount_cons_ws t hws]
      have h1 : runCount (t.dropWhile wsB) = runCount t := runCount_dropWhile_ws t
      calc ((([] :: splitRuns (t.dropWhile wsB)).filter (fun w => !w.isEmpty)).length)
          = (((splitRuns (t.dropWhile wsB)).filter (fun w => !w.isEmpty)).length) := by simp
        _ = runCount (t.dropWhile wsB) := ih.1
        _ = runCount t := h1
    · intro d hd
      rw [splitRuns_cons_ws t hws]
      have hdrop : (c :: t).dropWhile (fun x => !wsB x) = c :: t :=
        List.dropWhile_cons_of_neg (by simp [hws])
      rw [hdrop, runCount_cons_ws t hws, ← runCount_dropWhile_ws t, ← ih.1]
      simp only [consHead]
      simp
      omega
  | case3 c t hws ih =>
    have hws2 : wsB c = false := by simpa using hws
    constructor
    · rw [splitRuns_cons_nws t hws2, runCount_cons_nws t hws2]
      exact ih.2 c hws2
    · intro d hd
      rw [splitRuns_cons_nws t hws2]
      have hdrop : (c :: t).dropWhile (fun x => !wsB x) = t.dropWhile (fun x => !wsB x) :=
        List.dropWhile_cons_of_pos (by simp [hws2])
      rw [hdrop]
      cases hs : splitRuns t with
      | nil => exact absurd hs (splitRuns_ne_nil t)
      | cons a b =>
        have h2 := ih.2 c hws2
        rw [hs] at h2
        simp only [consHead] at h2 ⊢
        simpa using h2

/-- C6: for every content text, `countWords` equals the number of
whitespace-delimited non-empty tokens of the plain-text projection; in
particular `countWords "Hello world" = 2`. -/
theorem countWords_eq_tokens :
    (∀ s : String, countWords s = (tokens s.data).length) ∧
    countWords "Hello world" = 2 := by
  have hgen : ∀ s : String, countWords s = (tokens s.data).length := by
    intro s
    unfold countWords
    rw [(splitRuns_count (jsTrimL s.data)).1, runCount_trimL, tokens_length]
  refine ⟨hgen, ?_⟩
  rw [hgen "Hello world"]
  simp [tokens, wsB]

/-- C10: for every url string, the extracted `domain` is the hostname when
the url parses, the constant `"unknown"` when it does not (the operation
itself never throws); in particular a well-formed https url yields its
host and a schemeless string yields `"unknown"`. -/
theorem getDomain_hostname :
    (∀ u p, urlParse u = some p → getDomain u = p.hostname) ∧
    (∀ u, urlParse u = none → getDomain u = "unknown") ∧
    getDomain "https://ex.com/blog/post" = "ex.com" ∧
    getDomain "not a url" = "unknown" := by
  refine ⟨?_, ?_, ?_, ?_⟩
  · intro u p h
    unfold getDomain
    rw [h]
  · intro u h
    unfold getDomain
    rw [h]
  · decide
  · decide

/-- C10 witness: the dichotomy applied at a parsing and a non-parsing
address. -/
theorem getDomain_hostname_witness :
    getDomain "https://ex.com/blog/post" = "ex.com" ∧
    getDomain "not a url" = "unknown" :=
  ⟨getDomain_hostname.1 "https://ex.com/blog/post" ⟨"ex.com"⟩ (by decide),
   getDomain_hostname.2.1 "not a url" (by decide)⟩

theorem firstTitle_eq_find (d : Doc) (sels : List String) :
    firstTitle d sels =
      (sels.filterMap (fun sel => (d.query sel).map (fun e => jsTrim (elemVal e)))).find?
        (fun t => 3 < t.length) := by
  induction sels with
  | nil => rfl
  | cons sel rest ih =>
    rw [firstTitle, List.filterMap_cons]
    cases hq : d.query sel with
    | none => simpa using ih
    | some e =>
      simp only [Option.map_some, List.find?_cons]
      by_cases hlen : 3 < (jsTrim (elemVal e)).length
      · have hne : (jsTrim (elemVal e)).isEmpty = false := by
          rw [Bool.eq_false_iff]
          intro hc
          rw [String.isEmpty_iff] at hc
          rw [hc] at hlen
          simp [String.length] at hlen
        simp [hne, hlen]
      · simp [hlen, ih]

/-- C5 counterexample: the claim's resolution (a distinct `article h1`
first candidate) disagrees with `getTitle` on a document whose first
generic h1 is short chrome text: the claim picks the article heading,
the code skips `"Nav"` and takes the title tag instead. -/
theorem title_resolution_counterexample :
    getTitle cexTitleDoc ≠ titleSpec cexTitleDoc ∧
    getTitle cexTitleDoc = "Doc Title" ∧
    titleSpec cexTitleDoc = "Article Heading" := by
  refine ⟨?_, by decide, by decide⟩
  decide

/-- C5 (amended): for every document, `getTitle` resolves the title exactly
as the amended claim describes: the code's ordered candidate list (one
generic `h1` probe first, then the title tag, the og:title and
twitter:title metas and the title classes — no separate `article h1`
candidate), accepting the first candidate whose trimmed text has length
strictly greater than 3; if no candidate qualifies, the result is the
document's own title string, or the constant `"Untitled Page"`. -/
theorem getTitle_eq_titleAmended (d : Doc) : getTitle d = titleAmendedSpec d := by
  unfold getTitle titleAmendedSpec titleCandidatesOf
  rw [firstTitle_eq_find]

theorem filterTruthy_cons_some (s : String) (t : List (Option String)) :
    filterTruthy (some s :: t) =
      if s.isEmpty then filterTruthy t else s :: filterTruthy t := by
  unfold filterTruthy
  by_cases h : s.isEmpty
  · simp [List.filterMap_cons, List.filter_cons, h]
  · simp [List.filterMap_cons, List.filter_cons, h]

theorem filterTruthy_cons_none (t : List (Option String)) :
    filterTruthy (none :: t) = filterTruthy t := by
  unfold filterTruthy
  simp [List.filterMap_cons]

theorem isEmpty_pre2 (pre x : String) (h : pre.data ≠ []) :
    (pre ++ x).isEmpty = false := by
  rw [Bool.eq_false_iff]
  intro hc
  rw [String.isEmpty_iff] at hc
  have hd := congrArg String.data hc
  simp only [String.data_append] at hd
  rcases List.append_eq_nil.mp hd with ⟨h1, -⟩
  exact h h1

theorem isEmpty_pre3 (pre x suf : String) (h : pre.data ≠ []) :
    (pre ++ x ++ suf).isEmpty = false := by
  rw [Bool.eq_false_iff]
  intro hc
  rw [String.isEmpty_iff] at hc
  have hd := congrArg String.data hc
  simp only [String.data_append] at hd
  rcases List.append_eq_nil.mp hd with ⟨h1, -⟩
  rcases List.append_eq_nil.mp h1 with ⟨h2, -⟩
  exact h h2

theorem keyOf_url (x : String) : keyOf ("url: \"" ++ x ++ "\"") = "url" := by
  unfold keyOf
  simp [String.data_append, List.takeWhile_cons]

theorem keyOf_title (x : String) : keyOf ("title: \"" ++ x ++ "\"") = "title" := by
  unfold keyOf
  simp [String.data_append, List.takeWhile_cons]

theorem keyOf_timestamp (x : String) : keyOf ("timestamp: \"" ++ x ++ "\"") = "timestamp" := by
  unfold keyOf
  simp [String.data_append, List.takeWhile_cons]

theorem keyOf_domain (x : String) : keyOf ("domain: \"" ++ x ++ "\"") = "domain" := by
  unfold keyOf
  simp [String.data_append, List.takeWhile_cons]

theorem keyOf_author (x : String) : keyOf ("author: \"" ++ x ++ "\"") = "author" := by
  unfold keyOf
  simp [String.data_append, List.takeWhile_cons]

theorem keyOf_description (x : String) : keyOf ("description: \"" ++ x ++ "\"") = "description" := by
  unfold keyOf
  simp [String.data_append, List.takeWhile_cons]

theorem keyOf_excerpt (x : String) : keyOf ("excerpt: \"" ++ x ++ "\"") = "excerpt" := by
  unfold keyOf
  simp [String.data_append, List.takeWhile_cons]

theorem keyOf_word_count (x : String) : keyOf ("word_count: " ++ x) = "word_count" := by
  unfold keyOf
  simp [String.data_append, List.takeWhile_cons]

theorem keyOf_dashes : keyOf "---" = "---" := by decide

theorem isEmpty_dashes : ("---" : String).isEmpty = false := by decide

theorem isEmpty_blank : ("" : String).isEmpty = true := by decide

theorem fmKeys_eq (d : ExtractedContent) :
    fmKeys d =
      ["---", "url", "title", "timestamp", "domain"] ++
      (if d.author.isEmpty then [] else ["author"]) ++
      (if d.description.isEmpty then [] else ["description"]) ++
      ["word_count"] ++
      (if d.excerpt.isEmpty then [] else ["excerpt"]) ++ ["---"] := by
  unfold fmKeys fmLines fmItems
  by_cases hA : d.author.isEmpty <;> by_cases hD : d.description.isEmpty <;>
    by_cases hE : d.excerpt.isEmpty <;>
  · simp only [hA, hD, hE, Bool.not_true, Bool.not_false, if_true, if_false,
      Bool.false_eq_true, filterTruthy_cons_some, filterTruthy_cons_none,
      filterTruthy, List.filterMap_nil, List.filter_nil]
    simp [List.filter_cons, isEmpty_pre3, isEmpty_pre2, isEmpty_dashes,
      isEmpty_blank, keyOf_url, keyOf_title, keyOf_timestamp, keyOf_domain,
      keyOf_author, keyOf_description, keyOf_excerpt, keyOf_word_count,
      keyOf_dashes]

theorem isEmpty_false_of_ne (s : String) (h : s ≠ "") : s.isEmpty = false := by
  rw [Bool.eq_false_iff]
  intro hc
  rw [String.isEmpty_iff] at hc
  exact h hc

/-- C4: the front matter always emits the keys `url`, `title`, `timestamp`,
`domain` and `word_count`, and emits `author`, `description` and `excerpt`
exactly when the corresponding value is non-empty. -/
theorem frontmatter_keys (d : ExtractedContent) :
    "url" ∈ fmKeys d ∧ "title" ∈ fmKeys d ∧ "timestamp" ∈ fmKeys d ∧
    "domain" ∈ fmKeys d ∧ "word_count" ∈ fmKeys d ∧
    ("author" ∈ fmKeys d ↔ d.author ≠ "") ∧
    ("description" ∈ fmKeys d ↔ d.description ≠ "") ∧
    ("excerpt" ∈ fmKeys d ↔ d.excerpt ≠ "") := by
  simp only [fmKeys_eq]
  by_cases hA : d.author = "" <;> by_cases hD : d.description = "" <;>
    by_cases hE : d.excerpt = "" <;>
  · simp [hA, hD, hE, isEmpty_blank, isEmpty_false_of_ne]

/-- C4 witness: the key discipline at a record with an author but no
description. -/
theorem frontmatter_keys_witness :
    "author" ∈ fmKeys (ExtractedContent.mk "T" "" "Ann" "" "u" "d" "ts" 3 "") ∧
    "description" ∉ fmKeys (ExtractedContent.mk "T" "" "Ann" "" "u" "d" "ts" 3 "") := by
  constructor
  · exact (frontmatter_keys (ExtractedContent.mk "T" "" "Ann" "" "u" "d" "ts" 3 "")).2.2.2.2.2.1.mpr (by decide)
  · intro hc
    exact (frontmatter_keys (ExtractedContent.mk "T" "" "Ann" "" "u" "d" "ts" 3 "")).2.2.2.2.2.2.1.mp hc rfl

theorem hasTriple_short (l : List Char) (h : l.length ≤ 2) : hasTriple l = false := by
  match l with
  | [] => rfl
  | [a] => rfl
  | [a, b] => rfl
  | a :: b :: c :: t => simp at h

theorem hasTriple_cons3 (a b c : Char) (t : List Char) :
    hasTriple (a :: b :: c :: t) =
      ((a = '\n' && b = '\n' && c = '\n') || hasTriple (b :: c :: t)) := rfl

theorem hasTriple_tail {x : Char} {l : List Char} (h : hasTriple (x :: l) = false) :
    hasTriple l = false := by
  match l with
  | [] => rfl
  | [a] => rfl
  | a :: b :: t =>
    rw [hasTriple_cons3] at h
    exact (Bool.or_eq_false_iff.mp h).2

theorem hasTriple_drop {a l : List Char} (h : hasTriple (a ++ l) = false) :
    hasTriple l = false := by
  induction a with
  | nil => exact h
  | cons x t ih =>
    rw [List.cons_append] at h
    exact ih (hasTriple_tail h)

theorem hasTriple_cons_nonNL {c : Char} {l : List Char} (hc : ¬c = '\n')
    (h : hasTriple l = false) : hasTriple (c :: l) = false := by
  match l with
  | [] => rfl
  | [a] => rfl
  | a :: b :: t =>
    rw [hasTriple_cons3, h]
    simp [hc]

theorem hasTriple_one_nl {c : Char} {l : List Char} (hc : ¬c = '\n')
    (h : hasTriple (c :: l) = false) : hasTriple ('\n' :: c :: l) = false := by
  match l with
  | [] => rfl
  | a :: t =>
    rw [hasTriple_cons3]
    simp [hc, h]

theorem hasTriple_two_nl {c : Char} {l : List Char} (hc : ¬c = '\n')
    (h : hasTriple (c :: l) = false) : hasTriple ('\n' :: '\n' :: c :: l) = false := by
  rw [hasTriple_cons3]
  simp [hc]
  exact hasTriple_one_nl hc h

theorem hasTriple_replicate3 (m : Nat) (l : List Char) :
    hasTriple (List.replicate (m + 3) '\n' ++ l) = true := by
  rw [List.replicate_succ, List.replicate_succ, List.replicate_succ]
  simp [hasTriple_cons3]

theorem hasTriple_emitRun_cons (k : Nat) {c : Char} {l : List Char} (hc : ¬c = '\n')
    (h : hasTriple l = false) : hasTriple (emitRun k ++ (c :: l)) = false := by
  have hbase := hasTriple_cons_nonNL hc h
  unfold emitRun
  by_cases h3 : 3 ≤ k
  · simp only [h3, if_true, List.cons_append, List.nil_append]
    exact hasTriple_two_nl hc hbase
  · simp only [h3, if_false]
    match k, h3 with
    | 0, _ => simpa using hbase
    | 1, _ =>
      simp only [List.replicate_succ, List.replicate_zero, List.cons_append,
        List.nil_append]
      exact hasTriple_one_nl hc hbase
    | 2, _ =>
      simp only [List.replicate_succ, List.replicate_zero, List.cons_append,
        List.nil_append]
      exact hasTriple_two_nl hc hbase
    | n + 3, h3 => exact absurd (by omega) h3

theorem cnlGo_noTriple (l : List Char) : ∀ k, hasTriple (cnlGo k l) = false := by
  induction l with
  | nil =>
    intro k
    rw [cnlGo]
    unfold emitRun
    by_cases h3 : 3 ≤ k
    · simp only [h3, if_true]
      exact hasTriple_short _ (by simp)
    · simp only [h3, if_false]
      exact hasTriple_short _ (by simp; omega)
  | cons c t ih =>
    intro k
    rw [cnlGo]
    by_cases hc : c = '\n'
    · simp only [hc, if_true]
      exact ih (k + 1)
    · simp only [hc, if_false]
      exact hasTriple_emitRun_cons k hc (ih 0)

/-- After the blank-line collapse, no run of three newlines remains. -/
theorem collapseNL_noTriple (l : List Char) : hasTriple (collapseNL l) = false :=
  cnlGo_noTriple l 0

theorem cnlGo_id (l : List Char) :
    ∀ k, hasTriple (List.replicate k '\n' ++ l) = false →
      cnlGo k l = List.replicate k '\n' ++ l := by
  induction l with
  | nil =>
    intro k h
    rw [cnlGo]
    unfold emitRun
    by_cases h3 : 3 ≤ k
    · exfalso
      obtain ⟨m, rfl⟩ : ∃ m, k = m + 3 := ⟨k - 3, by omega⟩
      rw [hasTriple_replicate3] at h
      exact Bool.true_eq_false.mp h
    · simp [h3]
  | cons c t ih =>
    intro k h
    rw [cnlGo]
    by_cases hc : c = '\n'
    · subst hc
      have hshift : List.replicate k '\n' ++ '\n' :: t = List.replicate (k + 1) '\n' ++ t := by
        rw [List.replicate_succ']
        simp
      rw [hshift] at h
      simp only [reduceIte]
      rw [hshift]
      exact ih (k + 1) h
    · rw [if_neg hc]
      have hk : ¬3 ≤ k := by
        intro h3
        obtain ⟨m, rfl⟩ : ∃ m, k = m + 3 := ⟨k - 3, by omega⟩
        rw [hasTriple_replicate3] at h
        exact Bool.true_eq_false.mp h
      have ht : hasTriple t = false := by
        have h2 : hasTriple (c :: t) = false := hasTriple_drop h
        exact hasTriple_tail h2
      rw [ih 0 (by simpa using ht)]
      unfold emitRun
      rw [if_neg hk]
      simp

/-- A text with no run of three newlines is left unchanged by the
blank-line collapse. -/
theorem collapseNL_id {l : List Char} (h : hasTriple l = false) :
    collapseNL l = l := by
  unfold collapseNL
  simpa using cnlGo_id l 0 (by simpa using h)

theorem selGo_succ (n : Nat) (l : List Char) :
    selGo (n + 1) l =
      (match elMatch l with
       | some r => selGo n r
       | none =>
         match l with
         | [] => []
         | c :: t => c :: selGo n t) := rfl

theorem imgGo_succ (n : Nat) (l : List Char) :
    imgGo (n + 1) l =
      (match imgMatch l with
       | some (alt, src, r) =>
         '!' :: '[' :: (alt ++ ']' :: '(' :: (src ++ ')' :: '\n' :: '\n' :: imgGo n r))
       | none =>
         match l with
         | [] => []
         | c :: t => c :: imgGo n t) := rfl

theorem selGo_id : ∀ (fuel : Nat) (l : List Char), hasEL l = false → selGo fuel l = l := by
  intro fuel
  induction fuel with
  | zero => intro l h; rfl
  | succ n ih =>
    intro l h
    have hm : elMatch l = none := by
      cases hq : elMatch l with
      | none => rfl
      | some r =>
        exfalso
        cases l with
        | nil => rw [hasEL, hq] at h; simp at h
        | cons c t => rw [hasEL, hq] at h; simp at h
    rw [selGo_succ, hm]
    cases l with
    | nil => rfl
    | cons c t =>
      have ht : hasEL t = false := by
        rw [hasEL] at h
        exact (Bool.or_eq_false_iff.mp h).2
      show c :: selGo n t = c :: t
      rw [ih t ht]

/-- A text with no empty-link match is left unchanged by the empty-link
removal. -/
theorem stripEL_id {l : List Char} (h : hasEL l = false) : stripEL l = l :=
  selGo_id l.length l h

theorem imgGo_id : ∀ (fuel : Nat) (l : List Char), hasImg l = false → imgGo fuel l = l := by
  intro fuel
  induction fuel with
  | zero => intro l h; rfl
  | succ n ih =>
    intro l h
    have hm : imgMatch l = none := by
      cases hq : imgMatch l with
      | none => rfl
      | some r =>
        exfalso
        cases l with
        | nil => rw [hasImg, hq] at h; simp at h
        | cons c t => rw [hasImg, hq] at h; simp at h
    rw [imgGo_succ, hm]
    cases l with
    | nil => rfl
    | cons c t =>
      have ht : hasImg t = false := by
        rw [hasImg] at h
        exact (Bool.or_eq_false_iff.mp h).2
      show c :: imgGo n t = c :: t
      rw [ih t ht]

/-- A text with no image-spacing match is left unchanged by the
image-spacing normalization. -/
theorem imgFix_id {l : List Char} (h : hasImg l = false) : imgFix l = l :=
  imgGo_id l.length l h

theorem fmLines_head (d : ExtractedContent) :
    fmLines d = "---" :: filterTruthy (List.tail (fmItems d)) := by
  unfold fmLines fmItems
  rw [filterTruthy_cons_some]
  rw [if_neg (by rw [isEmpty_dashes]; simp)]
  rfl

theorem jsJoin_foldl_ne (sep : String) (l : List String) :
    ∀ acc : String, acc.data ≠ [] →
      (l.foldl (fun a x => a ++ sep ++ x) acc).data ≠ [] := by
  induction l with
  | nil => intro acc h; exact h
  | cons s t ih =>
    intro acc h
    rw [List.foldl_cons]
    apply ih
    simp only [String.data_append]
    intro hc
    rcases List.append_eq_nil.mp hc with ⟨h1, -⟩
    rcases List.append_eq_nil.mp h1 with ⟨h2, -⟩
    exact h h2

theorem createFrontmatter_ne (d : ExtractedContent) :
    (createFrontmatter d).data ≠ [] := by
  unfold createFrontmatter
  rw [fmLines_head]
  unfold jsJoin
  exact jsJoin_foldl_ne "\n" _ "---" (by simp)

theorem tryExtract_ok_fields (d : Doc) (t a ds u dom ts : String)
    (r : ExtractedContent) (h : tryExtract d t a ds u dom ts = .ok r) :
    r.title = t ∧ r.url = u ∧ r.timestamp = ts ∧ r.domain = dom := by
  unfold tryExtract at h
  cases hd : d.defud with
  | error e => rw [hd] at h; simp [Bind.bind, Except.bind] at h
  | ok c0 =>
    rw [hd] at h
    simp only [Bind.bind, Except.bind] at h
    cases hs : d.sanitize (if c0.isEmpty || (jsTrim c0).length < 100 then d.bodyHTML else c0) with
    | error e => rw [hs] at h; simp at h
    | ok content =>
      rw [hs] at h
      simp only at h
      cases hp : d.plainOf content with
      | error e => rw [hp] at h; simp at h
      | ok plainText =>
        rw [hp] at h
        simp only [pure, Except.pure, Except.ok.injEq] at h
        rw [← h]
        exact ⟨rfl, rfl, rfl, rfl⟩

theorem extractPageContent_eq (d : Doc) :
    extractPageContent d =
      (match tryExtract d (if d.title.isEmpty then "Untitled" else d.title)
          (extractAuthor d) (extractDescription d) d.href (getDomain d.href) d.now with
       | .ok r => r
       | .error _ =>
         { title := if d.title.isEmpty then "Untitled" else d.title,
           content := d.bodyHTML, author := extractAuthor d,
           description := extractDescription d, url := d.href,
           domain := getDomain d.href, timestamp := d.now,
           wordCount := countWords d.bodyText,
           excerpt := createExcerpt d.bodyText 200 }) := rfl

/-- C1: extraction always yields a populated record (the url, non-empty
title, timestamp and domain are those of the document), and whenever the
extraction pipeline inside the `try` raises, the result degrades to the
minimal record built from the document title and the body of the live
document — nothing is thrown past this boundary. -/
theorem extract_total_and_degrades (d : Doc) :
    ((extractPageContent d).url = d.href ∧
     (extractPageContent d).title ≠ "" ∧
     (extractPageContent d).timestamp = d.now ∧
     (extractPageContent d).domain = getDomain d.href) ∧
    (∀ e, tryExtract d (if d.title.isEmpty then "Untitled" else d.title)
        (extractAuthor d) (extractDescription d) d.href (getDomain d.href) d.now =
          .error e →
      extractPageContent d =
        { title := if d.title.isEmpty then "Untitled" else d.title,
          content := d.bodyHTML, author := extractAuthor d,
          description := extractDescription d, url := d.href,
          domain := getDomain d.href, timestamp := d.now,
          wordCount := countWords d.bodyText,
          excerpt := createExcerpt d.bodyText 200 }) := by
  have htitle : (if d.title.isEmpty then "Untitled" else d.title) ≠ "" := by
    by_cases h : d.title.isEmpty
    · simp [h]
    · simp only [h, if_false, Bool.false_eq_true]
      intro hc
      rw [hc] at h
      exact h isEmpty_blank
  constructor
  · rw [extractPageContent_eq]
    cases hr : tryExtract d (if d.title.isEmpty then "Untitled" else d.title)
        (extractAuthor d) (extractDescription d) d.href (getDomain d.href) d.now with
    | ok r =>
      obtain ⟨h1, h2, h3, h4⟩ := tryExtract_ok_fields d _ _ _ _ _ _ r hr
      exact ⟨h2, by rw [h1]; exact htitle, h3, h4⟩
    | error e =>
      exact ⟨rfl, htitle, rfl, rfl⟩
  · intro e he
    rw [extractPageContent_eq, he]

/-- C1 witness: the degradation applied at a concrete document whose
pipeline raises. -/
theorem extract_total_witness :
    extractPageContent witnessDoc =
      { title := if witnessDoc.title.isEmpty then "Untitled" else witnessDoc.title,
        content := witnessDoc.bodyHTML, author := extractAuthor witnessDoc,
        description := extractDescription witnessDoc, url := witnessDoc.href,
        domain := getDomain witnessDoc.href, timestamp := witnessDoc.now,
        wordCount := countWords witnessDoc.bodyText,
        excerpt := createExcerpt witnessDoc.bodyText 200 } ∧
    getDomain witnessDoc.href = "ex.com" :=
  ⟨(extract_total_and_degrades witnessDoc).2 () rfl, by decide⟩

theorem convertToMarkdown_eq (td : String → Except Unit String)
    (pu : String → String → String) (data : ExtractedContent) :
    convertToMarkdown td pu data =
      (match td (pu data.content data.url) with
       | .ok md0 =>
         createFrontmatter data ++ "\n" ++ jsTrim ⟨imgFix (stripEL (collapseNL md0.data))⟩
       | .error _ =>
         createFrontmatter data ++ "\n" ++
           jsTrim ⟨collapseWs (stripTags data.content.data)⟩) := rfl

/-- C2: whenever the transduction engine throws, `convertToMarkdown` falls
back to stripping markup tags from the original content in a single pass,
collapsing whitespace and trimming, and emits that text beneath the same
metadata header; and in every case the result is non-empty (no error is
propagated). -/
theorem convert_fallback_and_nonempty (td : String → Except Unit String)
    (pu : String → String → String) (data : ExtractedContent) :
    (∀ e, td (pu data.content data.url) = .error e →
      convertToMarkdown td pu data =
        createFrontmatter data ++ "\n" ++
          jsTrim ⟨collapseWs (stripTags data.content.data)⟩) ∧
    convertToMarkdown td pu data ≠ "" := by
  constructor
  · intro e he
    rw [convertToMarkdown_eq, he]
  · rw [convertToMarkdown_eq]
    cases ht : td (pu data.content data.url) with
    | ok md0 =>
      intro hc
      have hd := congrArg String.data hc
      simp only [String.data_append] at hd
      rcases List.append_eq_nil.mp hd with ⟨h1, -⟩
      rcases List.append_eq_nil.mp h1 with ⟨h2, -⟩
      exact createFrontmatter_ne data h2
    | error e =>
      intro hc
      have hd := congrArg String.data hc
      simp only [String.data_append] at hd
      rcases List.append_eq_nil.mp hd with ⟨h1, -⟩
      rcases List.append_eq_nil.mp h1 with ⟨h2, -⟩
      exact createFrontmatter_ne data h2

/-- C2 witness: the fallback equation applied at a concrete record with a
throwing transduction engine. -/
theorem convert_fallback_witness :
    convertToMarkdown (fun _ => .error ()) (fun c _ => c) witnessData =
      createFrontmatter witnessData ++ "\n" ++
        jsTrim ⟨collapseWs (stripTags witnessData.content.data)⟩ :=
  (convert_fallback_and_nonempty (fun _ => .error ()) (fun c _ => c) witnessData).1 () rfl

/-- C3: on the success path the blank-line collapse is applied exactly once,
to the fully serialized markdown and before the other post passes (never
mid-traversal); it leaves no run of three or more newlines, and a text
that already has no such run — the intentional block spacing — is
unchanged by it. -/
theorem collapse_once_after_serialization (td : String → Except Unit String)
    (pu : String → String → String) (data : ExtractedContent) (md : String)
    (h : td (pu data.content data.url) = .ok md) :
    convertToMarkdown td pu data =
      createFrontmatter data ++ "\n" ++ jsTrim ⟨imgFix (stripEL (collapseNL md.data))⟩ ∧
    hasTriple (collapseNL md.data) = false ∧
    (hasTriple md.data = false → collapseNL md.data = md.data) := by
  refine ⟨?_, collapseNL_noTriple md.data, fun hm => collapseNL_id hm⟩
  rw [convertToMarkdown_eq, h]

/-- C3 witness: the normalization equation applied at a concrete serialized
markdown with a blank-line run. -/
theorem collapse_once_witness :
    convertToMarkdown (fun _ => .ok "a\n\n\n\nb") (fun c _ => c) witnessData =
      createFrontmatter witnessData ++ "\n" ++
        jsTrim ⟨imgFix (stripEL (collapseNL ("a\n\n\n\nb" : String).data))⟩ ∧
    hasTriple (collapseNL ("a\n\n\n\nb" : String).data) = false :=
  ⟨(collapse_once_after_serialization (fun _ => .ok "a\n\n\n\nb") (fun c _ => c)
      witnessData "a\n\n\n\nb" rfl).1,
   (collapse_once_after_serialization (fun _ => .ok "a\n\n\n\nb") (fun c _ => c)
      witnessData "a\n\n\n\nb" rfl).2.1⟩

/-- C7: a table containing at least one cell with a `colspan` or `rowspan`
attribute is emitted as a verbatim raw block of its own HTML, never as the
pipe-table content. -/
theorem complex_table_raw_block (t : TableNode) (content : String)
    (h : ∃ c ∈ cellsOf t, hasAttr c "colspan" = true ∨ hasAttr c "rowspan" = true) :
    tableRule t content = "\n\n" ++ tableOuterHTML t ++ "\n\n" := by
  unfold tableRule
  rw [if_pos]
  unfold hasComplexStructure
  rw [List.any_eq_true]
  obtain ⟨c, hc, hor⟩ := h
  refine ⟨c, hc, ?_⟩
  rcases hor with h1 | h1 <;> simp [h1]

/-- C7 witness: the raw-block emission at a concrete table with a cell
carrying `rowspan="2"`. -/
theorem complex_table_witness :
    tableRule witnessTable "| x | y |" = "\n\n" ++ tableOuterHTML witnessTable ++ "\n\n" :=
  complex_table_raw_block witnessTable "| x | y |"
    ⟨TCell.mk "td" [("rowspan", "2")] "x", by decide, Or.inr (by decide)⟩

theorem dropWhile_head_false (p : Char → Bool) :
    ∀ (l : List Char) (c : Char) (t : List Char), l.dropWhile p = c :: t → p c = false := by
  intro l
  induction l with
  | nil => intro c t h; simp at h
  | cons a b ih =>
    intro c t h
    by_cases hp : p a
    · rw [List.dropWhile_cons_of_pos hp] at h
      exact ih c t h
    · rw [List.dropWhile_cons_of_neg hp] at h
      injection h with h1 h2
      rw [← h1]
      simpa using hp

theorem dropWhile_dropWhile (p : Char → Bool) (l : List Char) :
    (l.dropWhile p).dropWhile p = l.dropWhile p := by
  cases h : l.dropWhile p with
  | nil => rfl
  | cons c t =>
    have hc : p c = false := dropWhile_head_false p l c t h
    rw [List.dropWhile_cons_of_neg (by simp [hc])]

theorem trim_split (l : List Char) :
    ∃ w, l.dropWhile wsB = jsTrimL l ++ w ∧ ∀ c ∈ w, wsB c := by
  set A := l.dropWhile wsB with hA
  refine ⟨(A.reverse.takeWhile wsB).reverse, ?_, ?_⟩
  · unfold jsTrimL
    rw [← hA]
    calc A = A.reverse.reverse := (List.reverse_reverse A).symm
      _ = (A.reverse.takeWhile wsB ++ A.reverse.dropWhile wsB).reverse := by
          rw [List.takeWhile_append_dropWhile]
      _ = (A.reverse.dropWhile wsB).reverse ++ (A.reverse.takeWhile wsB).reverse := by
          rw [List.reverse_append]
  · intro c hc
    rw [List.mem_reverse] at hc
    exact List.mem_takeWhile_imp hc

theorem jsTrimL_idem (l : List Char) : jsTrimL (jsTrimL l) = jsTrimL l := by
  obtain ⟨w, hw, hws⟩ := trim_split l
  have hstep1 : (jsTrimL l).dropWhile wsB = jsTrimL l := by
    cases hB : jsTrimL l with
    | nil => rfl
    | cons c t =>
      have hA : l.dropWhile wsB = c :: (t ++ w) := by rw [hw, hB]; simp
      have hc : wsB c = false := dropWhile_head_false wsB l c (t ++ w) hA
      rw [List.dropWhile_cons_of_neg (by simp [hc])]
  have hstep2 : (jsTrimL l).reverse.dropWhile wsB = (jsTrimL l).reverse := by
    have : (jsTrimL l).reverse = (l.dropWhile wsB).reverse.dropWhile wsB := by
      unfold jsTrimL
      rw [List.reverse_reverse]
    rw [this, dropWhile_dropWhile]
  show (((jsTrimL l).dropWhile wsB).reverse.dropWhile wsB).reverse = jsTrimL l
  rw [hstep1, hstep2, List.reverse_reverse]

theorem jsTrim_idem (s : String) : jsTrim (jsTrim s) = jsTrim s := by
  unfold jsTrim
  rw [jsTrimL_idem]

theorem transduceBody_trimmed (f : HNode) :
    jsTrim (transduceBody f) = transduceBody f := by
  unfold transduceBody
  rw [jsTrim_idem]

/-- C8 counterexample: re-transducing the body of the transducer's own
output can change it.  On a fragment `<p>a</p><a href="x"></a><p>b</p>`
the first pass strips the empty link after blank lines were collapsed,
leaving a run of three newlines, and the second pass collapses that run. -/
theorem transduce_not_fixed_point :
    transduceBody (parseBody (transduceBody cexFrag)) ≠ transduceBody cexFrag := by
  decide

/-- C8 (amended): re-running the transduction on the body of its own output
returns the body unchanged, provided that body carries no empty-link
match and no run of three or more newlines (both of which the empty-link
stripping pass, which runs after the blank-line collapse, can introduce),
no image-spacing match, and no markup character `<` (so that it re-parses
as plain text). -/
theorem transduce_fixed_point (f : HNode)
    (h1 : hasEL (transduceBody f).data = false)
    (h2 : hasTriple (transduceBody f).data = false)
    (h3 : hasImg (transduceBody f).data = false)
    (_h5 : (transduceBody f).data.all (fun c => c ≠ '<') = true) :
    transduceBody (parseBody (transduceBody f)) = transduceBody f := by
  have hstep : transduceBody (parseBody (transduceBody f)) =
      jsTrim ⟨imgFix (stripEL (collapseNL (transduceBody f).data))⟩ := rfl
  rw [hstep, collapseNL_id h2, stripEL_id h1, imgFix_id h3]
  exact transduceBody_trimmed f

/-- C8 witness: the amended fixed point at a plain text fragment. -/
theorem transduce_fixed_point_witness :
    transduceBody (parseBody (transduceBody (HNode.text "hello world"))) =
      transduceBody (HNode.text "hello world") :=
  transduce_fixed_point (HNode.text "hello world") (by decide) (by decide)
    (by decide) (by decide)

theorem cloneAux_zero (s : DStore) (id : Nat) :
    cloneAux 0 s id = (s ++ [emptyCell], s.length) := by
  rw [cloneAux]

theorem cloneAux_succ (fuel : Nat) (s : DStore) (id : Nat) :
    cloneAux (fuel + 1) s id =
      (match s[id]? with
       | none => (s ++ [emptyCell], s.length)
       | some c =>
         ((cloneKids fuel s c.kids).1 ++ [{ c with kids := (cloneKids fuel s c.kids).2 }],
          (cloneKids fuel s c.kids).1.length)) := by
  rw [cloneAux]

theorem cloneKids_nil (fuel : Nat) (s : DStore) :
    cloneKids fuel s [] = (s, []) := by
  rw [cloneKids]

theorem cloneKids_cons (fuel : Nat) (s : DStore) (k : Nat) (t : List Nat) :
    cloneKids fuel s (k :: t) =
      ((cloneKids fuel (cloneAux fuel s k).1 t).1,
       (cloneAux fuel s k).2 :: (cloneKids fuel (cloneAux fuel s k).1 t).2) := by
  rw [cloneKids]

theorem walkUpdate_zero (upd : DStore → DCell → DCell) (s : DStore) (r : Nat) :
    walkUpdate upd 0 s r = s := by
  rw [walkUpdate]

theorem walkUpdate_succ (upd : DStore → DCell → DCell) (fuel : Nat) (s : DStore) (r : Nat) :
    walkUpdate upd (fuel + 1) s r =
      (match s[r]? with
       | none => s
       | some c => walkKids upd fuel (s.set r (upd s c)) (upd s c).kids) := by
  rw [walkUpdate]

theorem walkKids_nil (upd : DStore → DCell → DCell) (fuel : Nat) (s : DStore) :
    walkKids upd fuel s [] = s := by
  rw [walkKids]

theorem walkKids_cons (upd : DStore → DCell → DCell) (fuel : Nat) (s : DStore)
    (k : Nat) (t : List Nat) :
    walkKids upd fuel s (k :: t) = walkKids upd fuel (walkUpdate upd fuel s k) t := by
  rw [walkKids]

theorem closedAbove_trivial (s : DStore) : ClosedAbove s.length s := by
  intro i c hB hget k hk
  rw [List.getElem?_eq_none hB] at hget
  exact absurd hget (by simp)

theorem closedAbove_append_cell {B : Nat} {s : DStore} {c : DCell}
    (h : ClosedAbove B s) (hk : ∀ k ∈ c.kids, B ≤ k) :
    ClosedAbove B (s ++ [c]) := by
  intro i cc hB hget k hkm
  by_cases hi : i < s.length
  · rw [List.getElem?_append_left hi] at hget
    exact h i cc hB hget k hkm
  · by_cases hieq : i = s.length
    · subst hieq
      rw [List.getElem?_concat_length] at hget
      injection hget with hcc
      rw [← hcc] at hkm
      exact hk k hkm
    · have hlen : (s ++ [c]).length ≤ i := by
        simp only [List.length_append, List.length_cons, List.length_nil]
        omega
      rw [List.getElem?_eq_none hlen] at hget
      exact absurd hget (by simp)

theorem closedAbove_set {B : Nat} {s : DStore} {r : Nat} {c2 : DCell}
    (h : ClosedAbove B s) (hk : ∀ k ∈ c2.kids, B ≤ k) :
    ClosedAbove B (s.set r c2) := by
  intro i cc hB hget k hkm
  by_cases hir : r = i
  · subst hir
    by_cases hlen : r < s.length
    · rw [List.getElem?_set_eq_of_lt c2 hlen] at hget
      injection hget with hcc
      rw [← hcc] at hkm
      exact hk k hkm
    · have : (s.set r c2).length ≤ r := by
        rw [List.length_set]
        omega
      rw [List.getElem?_eq_none this] at hget
      exact absurd hget (by simp)
  · rw [List.getElem?_set_ne hir] at hget
    exact h i cc hB hget k hkm

theorem kids_spec_of_aux (fuel : Nat)
    (hA : ∀ (s : DStore) (id B : Nat), B ≤ s.length → ClosedAbove B s →
      (∃ app, (cloneAux fuel s id).1 = s ++ app) ∧
      ClosedAbove B (cloneAux fuel s id).1 ∧
      s.length ≤ (cloneAux fuel s id).2 ∧
      (cloneAux fuel s id).2 < (cloneAux fuel s id).1.length) :
    ∀ (l : List Nat) (s : DStore) (B : Nat), B ≤ s.length → ClosedAbove B s →
      (∃ app, (cloneKids fuel s l).1 = s ++ app) ∧
      ClosedAbove B (cloneKids fuel s l).1 ∧
      (∀ k ∈ (cloneKids fuel s l).2, B ≤ k ∧ k < (cloneKids fuel s l).1.length) := by
  intro l
  induction l with
  | nil =>
    intro s B hB hC
    rw [cloneKids_nil]
    exact ⟨⟨[], by simp⟩, hC, by simp⟩
  | cons k t ih =>
    intro s B hB hC
    rw [cloneKids_cons]
    obtain ⟨⟨app1, happ1⟩, hC1, hlen1, hlt1⟩ := hA s k B hB hC
    have hB1 : B ≤ (cloneAux fuel s k).1.length := by
      rw [happ1, List.length_append]
      omega
    obtain ⟨⟨app2, happ2⟩, hC2, hkids⟩ := ih (cloneAux fuel s k).1 B hB1 hC1
    have hgrow : (cloneAux fuel s k).1.length ≤
        (cloneKids fuel (cloneAux fuel s k).1 t).1.length := by
      rw [happ2, List.length_append]
      omega
    refine ⟨⟨app1 ++ app2, by rw [happ2, happ1, List.append_assoc]⟩, hC2, ?_⟩
    intro kk hkk
    rcases List.mem_cons.mp hkk with rfl | hmem
    · refine ⟨by omega, ?_⟩
      show (cloneAux fuel s k).2 < (cloneKids fuel (cloneAux fuel s k).1 t).1.length
      omega
    · have h := hkids kk hmem
      refine ⟨h.1, ?_⟩
      show kk < (cloneKids fuel (cloneAux fuel s k).1 t).1.length
      exact h.2

theorem clone_spec (fuel : Nat) :
    (∀ (s : DStore) (id B : Nat), B ≤ s.length → ClosedAbove B s →
      (∃ app, (cloneAux fuel s id).1 = s ++ app) ∧
      ClosedAbove B (cloneAux fuel s id).1 ∧
      s.length ≤ (cloneAux fuel s id).2 ∧
      (cloneAux fuel s id).2 < (cloneAux fuel s id).1.length) ∧
    (∀ (l : List Nat) (s : DStore) (B : Nat), B ≤ s.length → ClosedAbove B s →
      (∃ app, (cloneKids fuel s l).1 = s ++ app) ∧
      ClosedAbove B (cloneKids fuel s l).1 ∧
      (∀ k ∈ (cloneKids fuel s l).2, B ≤ k ∧ k < (cloneKids fuel s l).1.length)) := by
  induction fuel with
  | zero =>
    have hA : ∀ (s : DStore) (id B : Nat), B ≤ s.length → ClosedAbove B s →
        (∃ app, (cloneAux 0 s id).1 = s ++ app) ∧
        ClosedAbove B (cloneAux 0 s id).1 ∧
        s.length ≤ (cloneAux 0 s id).2 ∧
        (cloneAux 0 s id).2 < (cloneAux 0 s id).1.length := by
      intro s id B hB hC
      rw [cloneAux_zero]
      refine ⟨⟨[emptyCell], rfl⟩, closedAbove_append_cell hC (by simp [emptyCell]), ?_, ?_⟩
      · simp
      · simp
    exact ⟨hA, kids_spec_of_aux 0 hA⟩
  | succ n ihn =>
    have hA : ∀ (s : DStore) (id B : Nat), B ≤ s.length → ClosedAbove B s →
        (∃ app, (cloneAux (n + 1) s id).1 = s ++ app) ∧
        ClosedAbove B (cloneAux (n + 1) s id).1 ∧
        s.length ≤ (cloneAux (n + 1) s id).2 ∧
        (cloneAux (n + 1) s id).2 < (cloneAux (n + 1) s id).1.length := by
      intro s id B hB hC
      rw [cloneAux_succ]
      cases hid : s[id]? with
      | none =>
        refine ⟨⟨[emptyCell], rfl⟩, closedAbove_append_cell hC (by simp [emptyCell]), ?_, ?_⟩
        · simp
        · simp
      | some c =>
        obtain ⟨⟨app, happ⟩, hCk, hkids⟩ :=
          (kids_spec_of_aux n ihn.1) c.kids s B hB hC
        refine ⟨⟨app ++ [{ c with kids := (cloneKids n s c.kids).2 }], ?_⟩, ?_, ?_, ?_⟩
        · show (cloneKids n s c.kids).1 ++ [{ c with kids := (cloneKids n s c.kids).2 }] =
            s ++ (app ++ [{ c with kids := (cloneKids n s c.kids).2 }])
          rw [happ, List.append_assoc]
        · show ClosedAbove B
            ((cloneKids n s c.kids).1 ++ [{ c with kids := (cloneKids n s c.kids).2 }])
          exact closedAbove_append_cell hCk (fun k hk => (hkids k hk).1)
        · show s.length ≤ (cloneKids n s c.kids).1.length
          rw [happ, List.length_append]
          omega
        · show (cloneKids n s c.kids).1.length <
            ((cloneKids n s c.kids).1 ++ [{ c with kids := (cloneKids n s c.kids).2 }]).length
          simp
    exact ⟨hA, kids_spec_of_aux (n + 1) hA⟩

theorem walkKids_spec_of (upd : DStore → DCell → DCell) (fuel : Nat)
    (hW : ∀ (s : DStore) (r B : Nat), ClosedAbove B s → B ≤ r →
      (∀ n, n < B → (walkUpdate upd fuel s r)[n]? = s[n]?) ∧
      ClosedAbove B (walkUpdate upd fuel s r) ∧
      (walkUpdate upd fuel s r).length = s.length) :
    ∀ (l : List Nat) (s : DStore) (B : Nat), ClosedAbove B s → (∀ k ∈ l, B ≤ k) →
      (∀ n, n < B → (walkKids upd fuel s l)[n]? = s[n]?) ∧
      ClosedAbove B (walkKids upd fuel s l) ∧
      (walkKids upd fuel s l).length = s.length := by
  intro l
  induction l with
  | nil =>
    intro s B hC hk
    rw [walkKids_nil]
    exact ⟨fun n _ => rfl, hC, rfl⟩
  | cons k t ih =>
    intro s B hC hk
    rw [walkKids_cons]
    obtain ⟨hf1, hC1, hl1⟩ := hW s k B hC (hk k (by simp))
    obtain ⟨hf2, hC2, hl2⟩ := ih (walkUpdate upd fuel s k) B hC1
      (fun kk hkk => hk kk (by simp [hkk]))
    refine ⟨?_, hC2, by rw [hl2, hl1]⟩
    intro n hn
    rw [hf2 n hn, hf1 n hn]

theorem walk_spec (upd : DStore → DCell → DCell)
    (hupd : ∀ st c, ∀ k ∈ (upd st c).kids, k ∈ c.kids) (fuel : Nat) :
    ∀ (s : DStore) (r B : Nat), ClosedAbove B s → B ≤ r →
      (∀ n, n < B → (walkUpdate upd fuel s r)[n]? = s[n]?) ∧
      ClosedAbove B (walkUpdate upd fuel s r) ∧
      (walkUpdate upd fuel s r).length = s.length := by
  induction fuel with
  | zero =>
    intro s r B hC hr
    rw [walkUpdate_zero]
    exact ⟨fun n _ => rfl, hC, rfl⟩
  | succ n ihn =>
    intro s r B hC hr
    rw [walkUpdate_succ]
    cases hid : s[r]? with
    | none => exact ⟨fun n _ => rfl, hC, rfl⟩
    | some c =>
      have hkids : ∀ k ∈ (upd s c).kids, B ≤ k := by
        intro k hk
        exact hC r c hr hid k (hupd s c k hk)
      have hC1 : ClosedAbove B (s.set r (upd s c)) := closedAbove_set hC hkids
      obtain ⟨hf, hC2, hl⟩ := walkKids_spec_of upd n ihn (upd s c).kids
        (s.set r (upd s c)) B hC1 hkids
      refine ⟨?_, hC2, by rw [hl, List.length_set]⟩
      intro m hm
      rw [hf m hm, List.getElem?_set_ne (by omega)]

theorem cleanContent_store_frame (fuel : Nat) (resolve : String → String)
    (s : DStore) (e : Nat) :
    (∀ n, n < s.length → ((cleanContent fuel resolve s e).1)[n]? = s[n]?) ∧
    s.length ≤ (cleanContent fuel resolve s e).1.length := by
  have hsub1 : ∀ st c, ∀ k ∈ (removeUpd unwantedClean st c).kids, k ∈ c.kids := by
    intro st c k hk
    unfold removeUpd at hk
    simp only at hk
    exact List.mem_of_mem_filter hk
  have hsub2 : ∀ (st : DStore) (c : DCell),
      ∀ k ∈ (absolutizeCell resolve c).kids, k ∈ c.kids := by
    intro st c k hk
    unfold absolutizeCell at hk
    simpa using hk
  obtain ⟨⟨app, happ⟩, hC1, hlen1, hlt1⟩ :=
    (clone_spec fuel).1 s e s.length (Nat.le_refl _) (closedAbove_trivial s)
  obtain ⟨hf2, hC2, hl2⟩ := walk_spec (removeUpd unwantedClean) hsub1 fuel
    (cloneAux fuel s e).1 (cloneAux fuel s e).2 s.length hC1 hlen1
  obtain ⟨hf3, hC3, hl3⟩ := walk_spec (fun _ c => absolutizeCell resolve c) hsub2 fuel
    (walkUpdate (removeUpd unwantedClean) fuel (cloneAux fuel s e).1 (cloneAux fuel s e).2)
    (cloneAux fuel s e).2 s.length hC2 hlen1
  constructor
  · intro n hn
    show (walkUpdate (fun _ c => absolutizeCell resolve c) fuel
      (walkUpdate (removeUpd unwantedClean) fuel (cloneAux fuel s e).1
        (cloneAux fuel s e).2) (cloneAux fuel s e).2)[n]? = s[n]?
    rw [hf3 n hn, hf2 n hn, happ, List.getElem?_append_left hn]
  · show s.length ≤ (walkUpdate (fun _ c => absolutizeCell resolve c) fuel
      (walkUpdate (removeUpd unwantedClean) fuel (cloneAux fuel s e).1
        (cloneAux fuel s e).2) (cloneAux fuel s e).2).length
    rw [hl3, hl2, happ, List.length_append]
    omega

/-- C9: neither the cleaning pass nor the body-fallback path mutates any
cell of the caller's live store: every node that existed before the
operation is unchanged after it (the selector clones before cleaning). -/
theorem clean_never_mutates (fuel : Nat) (resolve : String → String)
    (s : DStore) (e : Nat) (n : Nat) (hn : n < s.length) :
    ((cleanContent fuel resolve s e).1)[n]? = s[n]? ∧
    ((bodyFallback fuel resolve s e).1)[n]? = s[n]? := by
  refine ⟨(cleanContent_store_frame fuel resolve s e).1 n hn, ?_⟩
  have hsub1 : ∀ st c, ∀ k ∈ (removeUpd unwantedBody st c).kids, k ∈ c.kids := by
    intro st c k hk
    unfold removeUpd at hk
    simp only at hk
    exact List.mem_of_mem_filter hk
  obtain ⟨⟨app, happ⟩, hC1, hlen1, hlt1⟩ :=
    (clone_spec fuel).1 s e s.length (Nat.le_refl _) (closedAbove_trivial s)
  obtain ⟨hf2, hC2, hl2⟩ := walk_spec (removeUpd unwantedBody) hsub1 fuel
    (cloneAux fuel s e).1 (cloneAux fuel s e).2 s.length hC1 hlen1
  have hgrow : s.length ≤ (walkUpdate (removeUpd unwantedBody) fuel
      (cloneAux fuel s e).1 (cloneAux fuel s e).2).length := by
    rw [hl2, happ, List.length_append]
    omega
  obtain ⟨hclean, -⟩ := cleanContent_store_frame fuel resolve
    (walkUpdate (removeUpd unwantedBody) fuel (cloneAux fuel s e).1 (cloneAux fuel s e).2)
    (cloneAux fuel s e).2
  show ((cleanContent fuel resolve
    (walkUpdate (removeUpd unwantedBody) fuel (cloneAux fuel s e).1 (cloneAux fuel s e).2)
    (cloneAux fuel s e).2).1)[n]? = s[n]?
  rw [hclean n (by omega), hf2 n hn, happ, List.getElem?_append_left hn]

/-- C9 witness: the frame property at a concrete two-node live document. -/
theorem clean_never_mutates_witness :
    ((cleanContent 5 (fun h => h)
        [DCell.mk "body" "" "" none none "t" [1], DCell.mk "p" "" "" none none "hi" []]
        0).1)[0]? =
      [DCell.mk "body" "" "" none none "t" [1], DCell.mk "p" "" "" none none "hi" []][0]? :=
  (clean_never_mutates 5 (fun h => h)
    [DCell.mk "body" "" "" none none "t" [1], DCell.mk "p" "" "" none none "hi" []]
    0 0 (by decide)).1
